import Mathlib

/-!
Shallow embedding of the `next-rum` component (godaddy/next-rum).

Source files embedded:
  * `src/purrformance.js` — the resource-timing index: `find`, `entries`
    (normalize + sort + filter over the browser resource log).
  * the `Measure` React component (timing store, flush scheduler,
    payload synthesizer, aggregator event handlers).

Modelling conventions:
  * Epoch/high-resolution timestamps are `Nat` (JS numbers here are finite,
    non-negative millisecond counts; JS truthiness of a number is `≠ 0`).
  * The JS timer handle field `this.timer` is `Option Nat` (`none` = `null`);
    `setTimeout` returns a fresh non-zero handle.  Armed, uncancelled timers
    are tracked in a `pendingTimers` list so statements about "at most one
    pending timer" are meaningful.
  * The sink (`props.navigated`) is modelled by accumulating the emitted
    payloads in a `sinkCalls` list.
  * `Measure.webVitals` members are the `null` constants of the source
    (nothing inside the repository ever writes to them), so every fallback
    read of them yields "absent".
-/

namespace NextRum

/-- `cs` starts with the characters `pre`. -/
def leadsWith : List Char → List Char → Bool
  | [], _ => true
  | _ :: _, [] => false
  | c :: cs, d :: ds => c == d && leadsWith cs ds

/-- `needle` occurs as a contiguous run inside `cs`. -/
def charsContains (needle : List Char) : List Char → Bool
  | [] => leadsWith needle []
  | d :: ds => leadsWith needle (d :: ds) || charsContains needle ds

/-- `true` iff `needle` occurs as a substring of `hay`;
this is the `key.indexOf(check)` containment test of `purrformance.entries`. -/
def strContains (hay needle : String) : Bool :=
  charsContains needle.data hay.data

/-- The key test of the normalization loop in `entries`: a field is
normalized iff its name contains `"Start"`, `"Time"` or `"End"`. -/
def normKey (key : String) : Bool :=
  strContains key "Start" || strContains key "Time" || strContains key "End"

/-- Normalize one numeric field named `key`: add the time origin exactly when
`normKey key` holds, as the `for key in entry` loop of `entries` does. -/
def normVal (origin : Nat) (key : String) (v : Nat) : Nat :=
  if normKey key then origin + v else v

/-- A resource-timing entry, with the fields of the spec's data model
(`name` plus the numeric high-resolution timing fields). -/
structure ResourceEntry where
  name : String
  startTime : Nat
  fetchStart : Nat
  responseStart : Nat
  responseEnd : Nat
  redirectStart : Nat
  redirectEnd : Nat
deriving Repr, DecidableEq

/-- Field-wise normalization of an entry, driven by the per-key test of the
source loop.  The `name` field is a string whose key contains none of
`Start`/`Time`/`End`, so it is copied unchanged. -/
def normalizeEntry (origin : Nat) (e : ResourceEntry) : ResourceEntry where
  name := e.name
  startTime := normVal origin "startTime" e.startTime
  fetchStart := normVal origin "fetchStart" e.fetchStart
  responseStart := normVal origin "responseStart" e.responseStart
  responseEnd := normVal origin "responseEnd" e.responseEnd
  redirectStart := normVal origin "redirectStart" e.redirectStart
  redirectEnd := normVal origin "redirectEnd" e.redirectEnd

/-- Secondary sort key: `a.responseStart || a.responseEnd` — JS `||` falls
through to `responseEnd` exactly when `responseStart` is falsy (zero). -/
def sortKey2 (e : ResourceEntry) : Nat :=
  if e.responseStart = 0 then e.responseEnd else e.responseStart

/-- The JS comparator of `entries` as a boolean total preorder:
`cmp(a,b) ≤ 0` for the comparator
`a.fetchStart - b.fetchStart`, falling back to the secondary key. -/
def resourceLE (a b : ResourceEntry) : Bool :=
  a.fetchStart < b.fetchStart ||
    (a.fetchStart == b.fetchStart && sortKey2 a ≤ sortKey2 b)

/-- Insert `x` after every element `y` with `resourceLE y x`; folding this
from the left is a stable insertion sort.  `Array.prototype.sort` is
required to be stable, and a stable sort for a total preorder comparator
has a unique output, so this is the sort of `entries`. -/
def insertEntry (x : ResourceEntry) : List ResourceEntry → List ResourceEntry
  | [] => [x]
  | y :: l => if resourceLE y x then y :: insertEntry x l else x :: y :: l

/-- Stable sort by the JS comparator (left fold of `insertEntry`). -/
def sortEntries (l : List ResourceEntry) : List ResourceEntry :=
  l.foldl (fun acc x => insertEntry x acc) []

/-- `entries({start, end}, resources)` of `src/purrformance.js`: sort the raw
snapshot by the comparator, normalize every `Start`/`Time`/`End` field by the
time origin, and keep the entries whose normalized `startTime` lies in
`[start, end]` (both endpoints inclusive). -/
def entriesFn (start end_ origin : Nat) (resources : List ResourceEntry) :
    List ResourceEntry :=
  ((sortEntries resources).map (normalizeEntry origin)).filter
    (fun d => start ≤ d.startTime && d.startTime ≤ end_)

/-- `find(resources, regexp)` of `src/purrformance.js`: first entry that is
truthy, has a truthy (non-empty) `name`, and whose name matches the pattern;
`undefined` (`none`) otherwise.  The regular expression is abstracted as a
boolean predicate on names. -/
def findEntry (resources : List ResourceEntry) (pattern : String → Bool) :
    Option ResourceEntry :=
  resources.find? (fun e => e.name != "" && pattern e.name)

/-- The page-bundle pattern of `resourceTiming` (a regular expression
anchored at the end): the name ends with `.js` and, before those three
characters, contains the literal path segment "slash _next slash - slash
page slash". -/
def matchPageBundle (name : String) : Bool :=
  let cs := name.data
  leadsWith (".js".data.reverse) cs.reverse &&
    charsContains "/_next/-/page/".data (cs.take (cs.length - 3))

/-! ## The `Measure` component -/

/-- One stored timing entry: `set(name, data)` writes `{ ...data, now: Date.now() }`;
the only extra field ever passed is a `url`. -/
structure TimingRecord where
  now : Nat
  url : Option String := none
deriving Repr, DecidableEq

/-- The `this.timings` object.  Only four names are ever written or read by
the component, so the store is a record of four optional entries. -/
structure Timings where
  navigationStart : Option TimingRecord := none
  domLoading : Option TimingRecord := none
  domContentLoaded : Option TimingRecord := none
  loadEventEnd : Option TimingRecord := none
deriving Repr, DecidableEq

/-- The empty `timings` object (`{}`). -/
def Timings.empty : Timings := {}

/-- The emitted RUM payload: the fifteen named fields of the README.
`domLoading` is `Option Nat` because the source assigns `null` to it when no
first-render timestamp is available; every other field is always a number. -/
structure RumPayload where
  navigationStart : Nat
  fetchStart : Nat
  domainLookupStart : Nat
  domainLookupEnd : Nat
  connectStart : Nat
  connectEnd : Nat
  requestStart : Nat
  responseStart : Nat
  responseEnd : Nat
  domLoading : Option Nat
  domInteractive : Nat
  domContentLoaded : Nat
  domComplete : Nat
  loadEventStart : Nat
  loadEventEnd : Nat
deriving Repr, DecidableEq

/-- An armed timer: the handle returned by `setTimeout` and the delay it was
armed with. -/
structure Timer where
  handle : Nat
  delay : Nat
deriving Repr, DecidableEq

/-- The mutable state of one `Measure` instance, together with the
observable history of sink calls and the set of armed, uncancelled timers. -/
structure MState where
  timings : Timings := {}
  /-- The `this.timer` field: `null` initially, afterwards the handle of the
  most recently armed timer (never reset to `null` by the source). -/
  timer : Option Nat := none
  /-- Timers armed by `setTimeout` and not yet cancelled or fired. -/
  pendingTimers : List Timer := []
  /-- Fresh-handle supply for `setTimeout` (handles are non-zero). -/
  nextHandle : Nat := 1
  /-- Every payload handed to `props.navigated`, oldest first. -/
  sinkCalls : List RumPayload := []
deriving Repr, DecidableEq

/-- `clearTimeout(this.timer)`: cancel the timer named by the handle field;
`clearTimeout(null)` does nothing. -/
def clearTimer (s : MState) : MState :=
  match s.timer with
  | none => s
  | some h => { s with pendingTimers := s.pendingTimers.filter (·.handle ≠ h) }

/-- `this.timer = setTimeout(this.payload, delay)`: arm a fresh timer and
store its handle in the timer field. -/
def armTimer (delay : Nat) (s : MState) : MState :=
  { s with
    timer := some s.nextHandle
    pendingTimers := s.pendingTimers ++ [⟨s.nextHandle, delay⟩]
    nextHandle := s.nextHandle + 1 }

/-- `reset()`: `clearTimeout(this.timer); this.timings = {}`. -/
def resetStep (s : MState) : MState :=
  { clearTimer s with timings := Timings.empty }

/-- `before()` at clock value `now`: record `domLoading` unless it exists. -/
def beforeStep (now : Nat) (s : MState) : MState :=
  if (s.timings.domLoading).isSome then s
  else { s with timings := { s.timings with domLoading := some ⟨now, none⟩ } }

/-- `after()` at clock value `now`: always overwrite `domContentLoaded`. -/
def afterStep (now : Nat) (s : MState) : MState :=
  { s with timings := { s.timings with domContentLoaded := some ⟨now, none⟩ } }

/-- Read a mandatory timestamp the way `payload()` does:
`this.get(n) && this.get(n).now ? this.get(n).now : webVitals.f` — the
`webVitals` fallback is the source's `null` constant, so the result is
absent when the record is absent or its clock value is falsy (zero). -/
def tsOf (r : Option TimingRecord) : Option Nat :=
  match r with
  | some t => if t.now = 0 then none else some t.now
  | none => none

/-- First enrichment stage of `resourceTiming`: when a page-bundle entry is
found, its truthy (non-zero) `responseStart`/`responseEnd` override the
defaulted fields. -/
def pageOverride (resources : List ResourceEntry) (rum : RumPayload) :
    RumPayload :=
  match findEntry resources matchPageBundle with
  | some page =>
      { rum with
        responseStart :=
          if page.responseStart ≠ 0 then page.responseStart
          else rum.responseStart
        responseEnd :=
          if page.responseEnd ≠ 0 then page.responseEnd else rum.responseEnd }
  | none => rum

/-- Second enrichment stage of `resourceTiming`: when the last correlated
entry's `responseEnd` exceeds the current `loadEventEnd`, it replaces it. -/
def lastOverride (resources : List ResourceEntry) (rum : RumPayload) :
    RumPayload :=
  match resources.getLast? with
  | some last =>
      if rum.loadEventEnd < last.responseEnd then
        { rum with loadEventEnd := last.responseEnd }
      else rum
  | none => rum

/-- The enrichment pass `resourceTiming(range, rum)` applied to an already
computed correlated-entry list: the page-bundle override followed by the
last-entry `loadEventEnd` bump. -/
def resourceTimingUpdate (resources : List ResourceEntry) (rum : RumPayload) :
    RumPayload :=
  lastOverride resources (pageOverride resources rum)

/-- The defaulted payload built by `payload()` before enrichment, from the
three mandatory values and the optional `domLoading` record. -/
def basePayload (start rendered end_ : Nat) (unmount : Option TimingRecord) :
    RumPayload where
  navigationStart := start
  fetchStart := start
  domainLookupStart := start
  domainLookupEnd := start
  connectStart := start
  connectEnd := start
  requestStart := start
  responseStart := start
  responseEnd := start
  domLoading :=
    match unmount with
    | some u => if u.now = 0 then none else some u.now
    | none => none
  domInteractive := rendered
  domContentLoaded := rendered
  domComplete := rendered
  loadEventStart := rendered
  loadEventEnd := end_

/-- `payload()`: read the mandatory timestamps; on any falsy one, discard by
`reset()`.  Otherwise build the defaulted record, enrich it from
`entries({start, end})` over the ambient resource log (`resources`, with
time origin `origin`), hand it to the sink, and reset. -/
def payloadStep (resources : List ResourceEntry) (origin : Nat) (s : MState) :
    MState :=
  match tsOf s.timings.navigationStart, tsOf s.timings.loadEventEnd,
      tsOf s.timings.domContentLoaded with
  | some start, some end_, some rendered =>
      let correlated := entriesFn start end_ origin resources
      let rum := resourceTimingUpdate correlated
        (basePayload start rendered end_ s.timings.domLoading)
      resetStep { s with sinkCalls := s.sinkCalls ++ [rum] }
  | _, _, _ => resetStep s

/-- `flush()`: `if (!this.timer) return this.reset(); this.payload();`. -/
def flushStep (resources : List ResourceEntry) (origin : Nat) (s : MState) :
    MState :=
  match s.timer with
  | none => resetStep s
  | some _ => payloadStep resources origin s

/-- `complete(url)` at clock value `now`: record `loadEventEnd`; with a
truthy configured delay, cancel the pending timer and arm a new one;
with delay zero, synthesize immediately and synchronously. -/
def completeStep (delay : Nat) (resources : List ResourceEntry) (origin : Nat)
    (url : String) (now : Nat) (s : MState) : MState :=
  let s1 := { s with timings :=
    { s.timings with loadEventEnd := some ⟨now, some url⟩ } }
  if delay ≠ 0 then armTimer delay (clearTimer s1)
  else payloadStep resources origin s1

/-- `start(url)` at clock value `now`: flush any queued cycle, then record
`navigationStart`.  (Clearing the ambient resource log is a side effect on
the shared browser buffer, outside this state.) -/
def startStep (resources : List ResourceEntry) (origin : Nat)
    (url : String) (now : Nat) (s : MState) : MState :=
  let s1 := flushStep resources origin s
  { s1 with timings :=
    { s1.timings with navigationStart := some ⟨now, some url⟩ } }

/-- Timer-handle sanity of one instance: the armed timers are at most the
one named by the handle field.  Holds in every reachable state. -/
def pendingOK (s : MState) : Prop :=
  s.pendingTimers = [] ∨
    ∃ h d, s.timer = some h ∧ s.pendingTimers = [⟨h, d⟩]

/-! ## Concrete fixtures used by counterexamples and witnesses -/

/-- An early-starting resource whose response finishes very late. -/
def eLate : ResourceEntry := ⟨"late-asset", 11, 11, 12, 1000, 0, 0⟩

/-- A later-starting resource whose response finishes early. -/
def eSmall : ResourceEntry := ⟨"small-asset", 20, 20, 21, 30, 0, 0⟩

/-- A raw snapshot (deliberately out of order) for the correlation claims. -/
def cexResources : List ResourceEntry := [eSmall, eLate]

/-- An entry whose `name` is the empty string (falsy in JS). -/
def emptyNameEntry : ResourceEntry := ⟨"", 15, 15, 16, 17, 0, 0⟩

/-- A state holding a full cycle: navigation start at 10, first render at 20,
last render at 40, completion at 50. -/
def fullState : MState :=
  { timings := { navigationStart := some ⟨10, none⟩
                 domLoading := some ⟨20, none⟩
                 domContentLoaded := some ⟨40, none⟩
                 loadEventEnd := some ⟨50, none⟩ } }

/-- A cycle in which `before-reactdom-render` never fired: the three
mandatory timestamps are present but `domLoading` is absent. -/
def noBeforeState : MState :=
  { timings := { navigationStart := some ⟨10, none⟩
                 domContentLoaded := some ⟨40, none⟩
                 loadEventEnd := some ⟨50, none⟩ } }

/-- Always-true name pattern (a regular expression matching everything). -/
def anyPat : String → Bool := fun _ => true

/-- The state right after construction: empty store, `null` timer. -/
def initialState : MState := {}

/-- An ordinary entry with a non-empty name. -/
def namedEntry : ResourceEntry := ⟨"bundle.js", 5, 5, 6, 7, 0, 0⟩

/-- A cycle missing its completion timestamp. -/
def noCompleteState : MState :=
  { timings := { navigationStart := some ⟨10, none⟩
                 domLoading := some ⟨20, none⟩
                 domContentLoaded := some ⟨40, none⟩ } }

/-! ## Helper lemmas: the stable sort of `entries` -/

theorem insertEntry_perm (x : ResourceEntry) (l : List ResourceEntry) :
    (insertEntry x l).Perm (x :: l) := by
  induction l with
  | nil => exact List.Perm.refl _
  | cons y t ih =>
    rw [insertEntry]
    by_cases h : resourceLE y x
    · rw [if_pos h]
      exact (ih.cons y).trans (List.Perm.swap x y t)
    · rw [if_neg h]

theorem foldl_insertEntry_perm (l acc : List ResourceEntry) :
    (l.foldl (fun a x => insertEntry x a) acc).Perm (acc ++ l) := by
  induction l generalizing acc with
  | nil => simp
  | cons x t ih =>
    rw [List.foldl_cons]
    refine (ih (insertEntry x acc)).trans ?_
    refine (((insertEntry_perm x acc).append_right t).trans ?_)
    exact List.perm_middle.symm

theorem sortEntries_perm (l : List ResourceEntry) : (sortEntries l).Perm l :=
  foldl_insertEntry_perm l []

theorem resourceLE_total (a b : ResourceEntry) :
    resourceLE a b = true ∨ resourceLE b a = true := by
  simp only [resourceLE, Bool.or_eq_true, Bool.and_eq_true, decide_eq_true_eq,
    beq_iff_eq]
  omega

theorem resourceLE_trans (a b c : ResourceEntry)
    (hab : resourceLE a b = true) (hbc : resourceLE b c = true) :
    resourceLE a c = true := by
  simp only [resourceLE, Bool.or_eq_true, Bool.and_eq_true, decide_eq_true_eq,
    beq_iff_eq] at hab hbc ⊢
  omega

theorem insertEntry_pairwise (x : ResourceEntry) (l : List ResourceEntry)
    (h : l.Pairwise (fun a b => resourceLE a b = true)) :
    (insertEntry x l).Pairwise (fun a b => resourceLE a b = true) := by
  induction l with
  | nil => simp [insertEntry]
  | cons y t ih =>
    rcases List.pairwise_cons.mp h with ⟨hy, ht⟩
    rw [insertEntry]
    by_cases hle : resourceLE y x
    · rw [if_pos hle]
      refine List.pairwise_cons.mpr ⟨?_, ih ht⟩
      intro z hz
      rcases List.mem_cons.mp ((insertEntry_perm x t).mem_iff.mp hz) with
        hz | hz
      · exact hz ▸ hle
      · exact hy z hz
    · rw [if_neg hle]
      have hxy : resourceLE x y = true :=
        (resourceLE_total x y).resolve_right (by simpa using hle)
      refine List.pairwise_cons.mpr ⟨?_, h⟩
      intro z hz
      rcases List.mem_cons.mp hz with hz | hz
      · exact hz ▸ hxy
      · exact resourceLE_trans x y z hxy (hy z hz)

theorem foldl_insertEntry_pairwise (l acc : List ResourceEntry)
    (h : acc.Pairwise (fun a b => resourceLE a b = true)) :
    (l.foldl (fun a x => insertEntry x a) acc).Pairwise
      (fun a b => resourceLE a b = true) := by
  induction l generalizing acc with
  | nil => exact h
  | cons x t ih =>
    rw [List.foldl_cons]
    exact ih (insertEntry x acc) (insertEntry_pairwise x acc h)

theorem sortEntries_pairwise (l : List ResourceEntry) :
    (sortEntries l).Pairwise (fun a b => resourceLE a b = true) :=
  foldl_insertEntry_pairwise l [] List.Pairwise.nil

theorem normalizeEntry_startTime (origin : Nat) (e : ResourceEntry) :
    (normalizeEntry origin e).startTime = origin + e.startTime := by
  have h : normKey "startTime" = true := by decide
  simp [normalizeEntry, normVal, h]

/-! ## Helper lemmas: first-match search -/

theorem find?_first {α : Type} (p : α → Bool) :
    ∀ (l : List α) (a : α), l.find? p = some a →
      p a = true ∧
        ∃ l₁ l₂, l = l₁ ++ a :: l₂ ∧ ∀ x ∈ l₁, p x = false := by
  intro l
  induction l with
  | nil => intro a h; simp [List.find?] at h
  | cons y t ih =>
    intro a h
    by_cases hy : p y = true
    · rw [List.find?_cons_of_pos _ hy] at h
      obtain rfl : y = a := by injection h
      exact ⟨hy, [], t, rfl, by intro x hx; cases hx⟩
    · have hy' : p y = false := by
        cases hpy : p y
        · rfl
        · exact absurd hpy hy
      rw [List.find?_cons_of_neg _ hy] at h
      obtain ⟨hpa, l₁, l₂, rfl, hnone⟩ := ih a h
      refine ⟨hpa, y :: l₁, l₂, rfl, ?_⟩
      intro x hx
      rcases List.mem_cons.mp hx with hx | hx
      · exact hx ▸ hy'
      · exact hnone x hx

/-! ## Helper lemmas: the component state machine -/

theorem clearTimer_parts (s : MState) :
    (clearTimer s).timings = s.timings ∧
    (clearTimer s).sinkCalls = s.sinkCalls ∧
    (clearTimer s).timer = s.timer ∧
    (clearTimer s).nextHandle = s.nextHandle := by
  cases h : s.timer <;> simp [clearTimer, h]

theorem resetStep_parts (s : MState) :
    (resetStep s).timings = Timings.empty ∧
    (resetStep s).sinkCalls = s.sinkCalls ∧
    (resetStep s).timer = s.timer ∧
    (resetStep s).nextHandle = s.nextHandle := by
  obtain ⟨h1, h2, h3, h4⟩ := clearTimer_parts s
  exact ⟨rfl, h2, h3, h4⟩

theorem payloadStep_emit (rs : List ResourceEntry) (origin : Nat) (s : MState)
    (ns ce lr : Nat)
    (hn : tsOf s.timings.navigationStart = some ns)
    (he : tsOf s.timings.loadEventEnd = some ce)
    (hr : tsOf s.timings.domContentLoaded = some lr) :
    payloadStep rs origin s =
      resetStep { s with sinkCalls := s.sinkCalls ++
        [resourceTimingUpdate (entriesFn ns ce origin rs)
          (basePayload ns lr ce s.timings.domLoading)] } := by
  unfold payloadStep
  rw [hn, he, hr]

theorem payloadStep_discard (rs : List ResourceEntry) (origin : Nat)
    (s : MState)
    (h : tsOf s.timings.navigationStart = none ∨
      tsOf s.timings.loadEventEnd = none ∨
      tsOf s.timings.domContentLoaded = none) :
    payloadStep rs origin s = resetStep s := by
  unfold payloadStep
  rcases hn : tsOf s.timings.navigationStart with _ | v1 <;>
    rcases he : tsOf s.timings.loadEventEnd with _ | v2 <;>
      rcases hr : tsOf s.timings.domContentLoaded with _ | v3 <;>
        simp_all

theorem pageOverride_domLoading (res : List ResourceEntry)
    (rum : RumPayload) :
    (pageOverride res rum).domLoading = rum.domLoading := by
  unfold pageOverride
  cases findEntry res matchPageBundle <;> rfl

theorem pageOverride_loadEventEnd (res : List ResourceEntry)
    (rum : RumPayload) :
    (pageOverride res rum).loadEventEnd = rum.loadEventEnd := by
  unfold pageOverride
  cases findEntry res matchPageBundle <;> rfl

theorem lastOverride_domLoading (res : List ResourceEntry)
    (rum : RumPayload) :
    (lastOverride res rum).domLoading = rum.domLoading := by
  unfold lastOverride
  cases res.getLast? with
  | none => rfl
  | some last => split <;> (first | rfl | (split <;> rfl))

theorem lastOverride_loadEventEnd (res : List ResourceEntry)
    (rum : RumPayload) :
    (lastOverride res rum).loadEventEnd =
      (match res.getLast? with
       | some last =>
           if rum.loadEventEnd < last.responseEnd then last.responseEnd
           else rum.loadEventEnd
       | none => rum.loadEventEnd) := by
  unfold lastOverride
  cases res.getLast? with
  | none => rfl
  | some last => split <;> (first | rfl | (split <;> rfl))

theorem resourceTimingUpdate_domLoading (res : List ResourceEntry)
    (rum : RumPayload) :
    (resourceTimingUpdate res rum).domLoading = rum.domLoading := by
  unfold resourceTimingUpdate
  rw [lastOverride_domLoading, pageOverride_domLoading]

theorem resourceTimingUpdate_loadEventEnd (res : List ResourceEntry)
    (rum : RumPayload) :
    (resourceTimingUpdate res rum).loadEventEnd =
      (match res.getLast? with
       | some last =>
           if rum.loadEventEnd < last.responseEnd then last.responseEnd
           else rum.loadEventEnd
       | none => rum.loadEventEnd) := by
  unfold resourceTimingUpdate
  rw [lastOverride_loadEventEnd, pageOverride_loadEventEnd]

theorem payloadStep_nextHandle (rs : List ResourceEntry) (origin : Nat)
    (s : MState) : (payloadStep rs origin s).nextHandle = s.nextHandle := by
  unfold payloadStep
  cases h1 : tsOf s.timings.navigationStart <;>
    cases h2 : tsOf s.timings.loadEventEnd <;>
      cases h3 : tsOf s.timings.domContentLoaded <;>
        exact (resetStep_parts _).2.2.2

theorem beforeStep_existing (t : Nat) (s : MState)
    (h : (s.timings.domLoading).isSome = true) : beforeStep t s = s := by
  unfold beforeStep
  rw [if_pos h]

theorem foldl_beforeStep_fix (ts : List Nat) (s : MState) (r : TimingRecord)
    (h : s.timings.domLoading = some r) :
    (ts.foldl (fun a t => beforeStep t a) s).timings.domLoading = some r := by
  induction ts generalizing s with
  | nil => exact h
  | cons t ts ih =>
    rw [List.foldl_cons, beforeStep_existing t s (by rw [h]; rfl)]
    exact ih s h

/-! ## The claims -/

/-- C3: whenever payload synthesis runs while any of the navigation-start
(`navigationStart`), last-render (`domContentLoaded`) or completion
(`loadEventEnd`) entries is missing from the timing store, the sink is not
called, the store is reset, and no partial payload is produced (the whole
step is exactly `reset()`). -/
theorem payload_incomplete_discards (rs : List ResourceEntry) (origin : Nat)
    (s : MState)
    (h : s.timings.navigationStart = none ∨
      s.timings.domContentLoaded = none ∨ s.timings.loadEventEnd = none) :
    payloadStep rs origin s = resetStep s ∧
    (payloadStep rs origin s).sinkCalls = s.sinkCalls ∧
    (payloadStep rs origin s).timings = Timings.empty := by
  have hd : payloadStep rs origin s = resetStep s := by
    apply payloadStep_discard
    rcases h with h | h | h
    · exact Or.inl (by rw [h]; rfl)
    · exact Or.inr (Or.inr (by rw [h]; rfl))
    · exact Or.inr (Or.inl (by rw [h]; rfl))
  obtain ⟨ht, hs, _, _⟩ := resetStep_parts s
  exact ⟨hd, by rw [hd, hs], by rw [hd, ht]⟩

/-- Witness for C3 at a concrete incomplete cycle (completion missing). -/
theorem payload_incomplete_discards_witness :
    payloadStep [] 0 noCompleteState = resetStep noCompleteState ∧
    (payloadStep [] 0 noCompleteState).sinkCalls = [] := by
  obtain ⟨h1, h2, _⟩ :=
    payload_incomplete_discards [] 0 noCompleteState (Or.inr (Or.inr rfl))
  exact ⟨h1, h2⟩

/-- C4: for every emitted payload with no correlated resource entries in
range, the eight network-phase fields and `navigationStart` all equal the
navigation-start timestamp, the four render-phase fields equal the
last-render timestamp, and `loadEventEnd` equals the completion timestamp. -/
theorem payload_default_fields (rs : List ResourceEntry) (origin : Nat)
    (s : MState) (ns lr ce : Nat)
    (hn : tsOf s.timings.navigationStart = some ns)
    (hr : tsOf s.timings.domContentLoaded = some lr)
    (he : tsOf s.timings.loadEventEnd = some ce)
    (hres : entriesFn ns ce origin rs = []) :
    ∃ p : RumPayload,
      (payloadStep rs origin s).sinkCalls = s.sinkCalls ++ [p] ∧
      p.navigationStart = ns ∧ p.fetchStart = ns ∧ p.domainLookupStart = ns ∧
      p.domainLookupEnd = ns ∧ p.connectStart = ns ∧ p.connectEnd = ns ∧
      p.requestStart = ns ∧ p.responseStart = ns ∧ p.responseEnd = ns ∧
      p.domInteractive = lr ∧ p.domContentLoaded = lr ∧ p.domComplete = lr ∧
      p.loadEventStart = lr ∧ p.loadEventEnd = ce := by
  rw [payloadStep_emit rs origin s ns ce lr hn he hr, hres]
  exact ⟨basePayload ns lr ce s.timings.domLoading, (resetStep_parts _).2.1,
    rfl, rfl, rfl, rfl, rfl, rfl, rfl, rfl, rfl, rfl, rfl, rfl, rfl, rfl⟩

/-- Witness for C4: the spec scenario with navigation start 10, last render
40, completion 50 and no resource entries. -/
theorem payload_default_fields_witness :
    ∃ p : RumPayload,
      (payloadStep [] 0 fullState).sinkCalls = fullState.sinkCalls ++ [p] ∧
      p.responseStart = 10 ∧ p.domComplete = 40 ∧ p.loadEventEnd = 50 := by
  obtain ⟨p, h1, _, _, _, _, _, _, _, h9, _, _, _, h13, _, h15⟩ :=
    payload_default_fields [] 0 fullState 10 40 50 rfl rfl rfl rfl
  exact ⟨p, h1, h9, h13, h15⟩

/-- C9: forced flush on a state with no timer (`this.timer` is `null`, as in
a freshly constructed instance) and an empty store is observationally a
no-op: it changes nothing at all, and in particular makes no sink call. -/
theorem flush_empty_noop (rs : List ResourceEntry) (origin : Nat) (s : MState)
    (h1 : s.timer = none) (h2 : s.timings = Timings.empty) :
    flushStep rs origin s = s ∧
    (flushStep rs origin s).sinkCalls = s.sinkCalls := by
  have hf : flushStep rs origin s = resetStep s := by
    unfold flushStep
    rw [h1]
  have hc : clearTimer s = s := by
    unfold clearTimer
    rw [h1]
  have hres : resetStep s = s := by
    calc resetStep s = { clearTimer s with timings := Timings.empty } := rfl
      _ = { s with timings := Timings.empty } := by rw [hc]
      _ = { s with timings := s.timings } := by rw [h2]
      _ = s := rfl
  exact ⟨hf.trans hres, by rw [hf, hres]⟩

/-- Witness for C9 at the freshly constructed state. -/
theorem flush_empty_noop_witness :
    flushStep [] 0 initialState = initialState ∧
    (flushStep [] 0 initialState).sinkCalls = [] :=
  flush_empty_noop [] 0 initialState rfl rfl

/-- C10: whenever the `this.timer` field is `null` (no timer was ever armed,
i.e. no timer is pending), `flush()` takes the `reset()` branch: the sink is
never reached and the timing store is unconditionally cleared, even when
timestamps such as `navigationStart` are already recorded.  Contrapositively,
a sink call from `flush()` requires a non-`null` timer field. -/
theorem flush_no_timer_no_sink (rs : List ResourceEntry) (origin : Nat)
    (s : MState) (h : s.timer = none) :
    (flushStep rs origin s).sinkCalls = s.sinkCalls ∧
    (flushStep rs origin s).timings = Timings.empty := by
  have hf : flushStep rs origin s = resetStep s := by
    unfold flushStep
    rw [h]
  obtain ⟨ht, hs, _, _⟩ := resetStep_parts s
  exact ⟨by rw [hf, hs], by rw [hf, ht]⟩

/-- Witness for C10 at a state that has a full set of recorded timestamps
but a `null` timer field: the store is cleared and the sink never called. -/
theorem flush_no_timer_no_sink_witness :
    (flushStep [] 0 fullState).sinkCalls = fullState.sinkCalls ∧
    (flushStep [] 0 fullState).timings = Timings.empty :=
  flush_no_timer_no_sink [] 0 fullState rfl

/-- C7: within one cycle (store starts with no `domLoading`), the first
`before-reactdom-render` signal records the first-render timestamp and any
number of repetitions leaves it unchanged; repeated `after-reactdom-render`
signals always overwrite `domContentLoaded`, so the last value wins. -/
theorem before_idempotent_after_overwrites (s : MState) (t1 t2 : Nat)
    (ts ts' : List Nat) (h : s.timings.domLoading = none) :
    ((ts.foldl (fun a t => beforeStep t a) (beforeStep t1 s)).timings.domLoading
      = some ⟨t1, none⟩) ∧
    (((ts' ++ [t2]).foldl (fun a t => afterStep t a) s).timings.domContentLoaded
      = some ⟨t2, none⟩) := by
  constructor
  · apply foldl_beforeStep_fix
    unfold beforeStep
    rw [if_neg (by rw [h]; simp)]
  · rw [List.foldl_append, List.foldl_cons, List.foldl_nil]
    rfl

/-- Witness for C7: first-render stays at 5 after repeats at 7 and 8; the
last of the render-finished signals (at 9) wins. -/
theorem before_idempotent_after_overwrites_witness :
    ((([7, 8] : List Nat).foldl (fun a t => beforeStep t a)
        (beforeStep 5 initialState)).timings.domLoading = some ⟨5, none⟩) ∧
    (((([1, 2] : List Nat) ++ [9]).foldl (fun a t => afterStep t a)
        initialState).timings.domContentLoaded = some ⟨9, none⟩) :=
  before_idempotent_after_overwrites initialState 5 9 [7, 8] [1, 2] rfl

/-- C5: `entries({start, end})` returns a permutation of the snapshot,
sorted ascending by the comparator (`fetchStart`, then `responseStart` with
`responseEnd` as fallback for a falsy `responseStart`), with every field
whose name contains `Start`, `Time` or `End` increased by the time origin
(`name` untouched), keeping exactly the entries whose normalized `startTime`
lies in `[start, end]`, both endpoints inclusive. -/
theorem entries_sorted_normalized_filtered (start end_ origin : Nat)
    (rs : List ResourceEntry) :
    (sortEntries rs).Perm rs ∧
    (sortEntries rs).Pairwise (fun a b => resourceLE a b = true) ∧
    entriesFn start end_ origin rs =
      ((sortEntries rs).map (normalizeEntry origin)).filter
        (fun d => start ≤ d.startTime && d.startTime ≤ end_) ∧
    (∀ e : ResourceEntry,
      (normalizeEntry origin e).name = e.name ∧
      (normalizeEntry origin e).startTime = origin + e.startTime ∧
      (normalizeEntry origin e).fetchStart = origin + e.fetchStart ∧
      (normalizeEntry origin e).responseStart = origin + e.responseStart ∧
      (normalizeEntry origin e).responseEnd = origin + e.responseEnd ∧
      (normalizeEntry origin e).redirectStart = origin + e.redirectStart ∧
      (normalizeEntry origin e).redirectEnd = origin + e.redirectEnd) ∧
    (∀ d ∈ entriesFn start end_ origin rs,
      start ≤ d.startTime ∧ d.startTime ≤ end_) := by
  refine ⟨sortEntries_perm rs, sortEntries_pairwise rs, rfl, ?_, ?_⟩
  · intro e
    have k1 : normKey "startTime" = true := by decide
    have k2 : normKey "fetchStart" = true := by decide
    have k3 : normKey "responseStart" = true := by decide
    have k4 : normKey "responseEnd" = true := by decide
    have k5 : normKey "redirectStart" = true := by decide
    have k6 : normKey "redirectEnd" = true := by decide
    exact ⟨rfl, by simp [normalizeEntry, normVal, k1],
      by simp [normalizeEntry, normVal, k2],
      by simp [normalizeEntry, normVal, k3],
      by simp [normalizeEntry, normVal, k4],
      by simp [normalizeEntry, normVal, k5],
      by simp [normalizeEntry, normVal, k6]⟩
  · intro d hd
    have hp := (List.mem_filter.mp hd).2
    simp only [Bool.and_eq_true, decide_eq_true_eq] at hp
    exact hp

/-- Witness for C5: the in-range guarantee evaluated on a concrete
two-entry snapshot. -/
theorem entries_sorted_normalized_filtered_witness :
    10 ≤ (normalizeEntry 0 eLate).startTime ∧
    (normalizeEntry 0 eLate).startTime ≤ 50 :=
  (entries_sorted_normalized_filtered 10 50 0 cexResources).2.2.2.2
    (normalizeEntry 0 eLate) (by decide)

/-- C6 counterexample: the claim says `find` returns the first entry whose
name matches the pattern, for every list and pattern.  The source also
requires the name to be truthy: for an entry whose name is the empty string
and the everything-matching pattern, the name matches yet `find` returns
`undefined`. -/
theorem find_skips_empty_name_cex :
    anyPat emptyNameEntry.name = true ∧
    findEntry [emptyNameEntry] anyPat = none :=
  ⟨rfl, rfl⟩

/-- C6 amended: `find` returns the first entry in list order whose name is
non-empty (truthy) and matches the pattern, and `undefined` when no entry
has a non-empty matching name. -/
theorem find_first_nonempty_match (rs : List ResourceEntry)
    (p : String → Bool) :
    (findEntry rs p = none ↔
      ∀ e ∈ rs, (e.name != "" && p e.name) = false) ∧
    ∀ e : ResourceEntry, findEntry rs p = some e →
      (e.name != "" && p e.name) = true ∧
      ∃ l₁ l₂, rs = l₁ ++ e :: l₂ ∧
        ∀ x ∈ l₁, (x.name != "" && p x.name) = false := by
  constructor
  · unfold findEntry
    rw [List.find?_eq_none]
    constructor
    · intro h e he
      have hne := h e he
      cases hx : (e.name != "" && p e.name)
      · rfl
      · exact absurd hx hne
    · intro h e he
      rw [h e he]
      simp
  · intro e he
    exact find?_first _ rs e he

/-- Witness for C6: on a list whose head has an empty name, the first
non-empty match is the second entry. -/
theorem find_first_nonempty_match_witness :
    (namedEntry.name != "" && anyPat namedEntry.name) = true ∧
    ∃ l₁ l₂, ([emptyNameEntry, namedEntry] : List ResourceEntry) =
        l₁ ++ namedEntry :: l₂ ∧
      ∀ x ∈ l₁, (x.name != "" && anyPat x.name) = false :=
  (find_first_nonempty_match [emptyNameEntry, namedEntry] anyPat).2
    namedEntry (by decide)

/-- C8: on a completion signal with a positive configured delay, the timer
named by the handle field is cancelled and exactly one fresh timer for that
delay is armed (so afterwards exactly one timer is pending and synthesis has
not yet run); with delay `0`, synthesis is invoked immediately and
synchronously and no timer is armed (the handle supply is untouched). -/
theorem complete_timer_discipline (delay : Nat) (rs : List ResourceEntry)
    (origin : Nat) (url : String) (now : Nat) (s : MState)
    (hinv : pendingOK s) :
    (0 < delay →
      (completeStep delay rs origin url now s).pendingTimers =
        [⟨s.nextHandle, delay⟩] ∧
      (completeStep delay rs origin url now s).timer = some s.nextHandle ∧
      (completeStep delay rs origin url now s).sinkCalls = s.sinkCalls) ∧
    (delay = 0 →
      completeStep delay rs origin url now s =
        payloadStep rs origin
          { s with timings :=
            { s.timings with loadEventEnd := some ⟨now, some url⟩ } } ∧
      (completeStep delay rs origin url now s).nextHandle = s.nextHandle) := by
  constructor
  · intro hpos
    have hne : delay ≠ 0 := by omega
    unfold completeStep
    rw [if_pos hne]
    have hclear : (clearTimer { s with timings :=
        { s.timings with loadEventEnd := some ⟨now, some url⟩ } }).pendingTimers
        = [] := by
      rcases hinv with hp | ⟨h0, d, ht, hp⟩
      · unfold clearTimer
        cases htm : s.timer
        · exact hp
        · simp only []
          rw [hp]
          rfl
      · unfold clearTimer
        rw [show ({ s with timings :=
            { s.timings with loadEventEnd := some ⟨now, some url⟩ } } :
            MState).timer = some h0 from ht]
        simp only []
        rw [hp]
        simp [List.filter]
    refine ⟨?_, ?_, ?_⟩
    · simp only [armTimer]
      rw [hclear, (clearTimer_parts _).2.2.2]
      rfl
    · simp only [armTimer]
      rw [(clearTimer_parts _).2.2.2]
    · simp only [armTimer]
      exact (clearTimer_parts _).2.1
  · intro hz
    subst hz
    unfold completeStep
    rw [if_neg (by simp)]
    exact ⟨rfl, payloadStep_nextHandle rs origin _⟩

/-- Witness for C8: delay 100 on the fresh instance arms exactly the timer
with handle 1; delay 0 on the fresh instance runs synthesis at once. -/
theorem complete_timer_discipline_witness :
    ((completeStep 100 [] 0 "/u" 5 initialState).pendingTimers =
      [⟨1, 100⟩] ∧
    (completeStep 100 [] 0 "/u" 5 initialState).timer = some 1) ∧
    (completeStep 0 [] 0 "/u" 5 initialState).nextHandle = 1 := by
  obtain ⟨hd, hz⟩ :=
    complete_timer_discipline 100 [] 0 "/u" 5 initialState (Or.inl rfl)
  obtain ⟨h1, h2, _⟩ := hd (by decide)
  obtain ⟨_, hz2⟩ :=
    (complete_timer_discipline 0 [] 0 "/u" 5 initialState (Or.inl rfl)).2 rfl
  exact ⟨⟨h1, h2⟩, hz2⟩

/-- C1 counterexample: with navigation start 10 and completion 50, the
in-range correlated entries have `responseEnd` values `[1000, 30]` (sorted
order puts the early-fetching, late-finishing entry first).  An entry
exceeds the current `loadEventEnd` (1000 > 50), so the claim requires the
emitted `loadEventEnd` to be the maximum 1000 — but the source only looks at
the LAST sorted entry (`responseEnd` 30, not above 50), so the emitted value
stays 50. -/
theorem loadEventEnd_not_max_cex :
    (entriesFn 10 50 0 cexResources).map ResourceEntry.responseEnd =
      [1000, 30] ∧
    (50 : Nat) < 1000 ∧
    (payloadStep cexResources 0 fullState).sinkCalls.map
      RumPayload.loadEventEnd = [50] := by
  exact ⟨by decide, by decide, by decide⟩

/-- C1 amended: for every emitted payload, `loadEventEnd` equals the
`responseEnd` of the LAST correlated entry in sorted range order when that
exceeds the completion timestamp, and the completion timestamp otherwise. -/
theorem emitted_loadEventEnd_last_entry (rs : List ResourceEntry)
    (origin : Nat) (s : MState) (ns lr ce : Nat)
    (hn : tsOf s.timings.navigationStart = some ns)
    (hr : tsOf s.timings.domContentLoaded = some lr)
    (he : tsOf s.timings.loadEventEnd = some ce) :
    ∃ p : RumPayload,
      (payloadStep rs origin s).sinkCalls = s.sinkCalls ++ [p] ∧
      p.loadEventEnd =
        (match (entriesFn ns ce origin rs).getLast? with
         | some last =>
             if ce < last.responseEnd then last.responseEnd else ce
         | none => ce) := by
  rw [payloadStep_emit rs origin s ns ce lr hn he hr]
  refine ⟨_, (resetStep_parts _).2.1, ?_⟩
  rw [resourceTimingUpdate_loadEventEnd]
  rfl

/-- Witness for C1 (amended) at the counterexample inputs: the last sorted
entry finishes at 30 ≤ 50, so the emitted `loadEventEnd` is 50. -/
theorem emitted_loadEventEnd_last_entry_witness :
    ∃ p : RumPayload,
      (payloadStep cexResources 0 fullState).sinkCalls =
        fullState.sinkCalls ++ [p] ∧
      p.loadEventEnd = 50 := by
  obtain ⟨p, h1, h2⟩ :=
    emitted_loadEventEnd_last_entry cexResources 0 fullState 10 40 50
      rfl rfl rfl
  refine ⟨p, h1, ?_⟩
  rw [h2]
  decide

/-- C2 counterexample: a cycle in which the navigation-start, last-render
and completion timestamps are all present but `before-reactdom-render`
never fired.  A payload is emitted, yet its `domLoading` field is `null`,
not a number — so not every one of the 15 fields is numeric. -/
theorem payload_domLoading_null_cex :
    noBeforeState.timings.navigationStart.isSome = true ∧
    noBeforeState.timings.domContentLoaded.isSome = true ∧
    noBeforeState.timings.loadEventEnd.isSome = true ∧
    (payloadStep [] 0 noBeforeState).sinkCalls.map RumPayload.domLoading =
      [none] := by
  exact ⟨rfl, rfl, rfl, by decide⟩

/-- C2 amended: whenever the three mandatory timestamps are present (with
truthy clock values), exactly one payload is emitted; by construction of
`RumPayload` its fourteen non-`domLoading` fields are finite non-negative
numbers, and `domLoading` carries the first-render clock value when one was
recorded with a truthy value (and is `null` otherwise). -/
theorem payload_fields_with_first_render (rs : List ResourceEntry)
    (origin : Nat) (s : MState) (ns lr ce : Nat)
    (hn : tsOf s.timings.navigationStart = some ns)
    (hr : tsOf s.timings.domContentLoaded = some lr)
    (he : tsOf s.timings.loadEventEnd = some ce) :
    ∃ p : RumPayload,
      (payloadStep rs origin s).sinkCalls = s.sinkCalls ++ [p] ∧
      p.domLoading = tsOf s.timings.domLoading := by
  rw [payloadStep_emit rs origin s ns ce lr hn he hr]
  refine ⟨_, (resetStep_parts _).2.1, ?_⟩
  rw [resourceTimingUpdate_domLoading]
  rfl

/-- Witness for C2 (amended): with a first render recorded at 20, the
emitted `domLoading` is the number 20. -/
theorem payload_fields_with_first_render_witness :
    ∃ p : RumPayload,
      (payloadStep [] 0 fullState).sinkCalls = fullState.sinkCalls ++ [p] ∧
      p.domLoading = some 20 := by
  obtain ⟨p, h1, h2⟩ :=
    payload_fields_with_first_render [] 0 fullState 10 40 50 rfl rfl rfl
  exact ⟨p, h1, by rw [h2]; rfl⟩

end NextRum
